import Mathlib

/-!
Verification of the Resume_Analysis repository (Resume_Analyzer package).

The development shallowly embeds the Python sources:
  * `pdf_extractor.py`  — PDF text extraction, resume-content validation,
    text preprocessing;
  * `ai_analyzer.py`    — prompt construction and the OpenAI call boundary;
  * `test.py`           — the Streamlit driver, in particular the score-band
    display logic and the analysis pipeline control flow.

Python strings are embedded as `List Char` (named `Text` below).  Python's
ASCII whitespace characters (the characters matched by `str.strip`, `str.split`
and the regex class `\s` on ASCII input) are modelled by `isPyWs`.  Fallible
external effects (the OpenAI transport, the PDF reader) are passed in as
explicit parameters returning `Except`, and observable side effects (service
calls made, streamlit warnings) are reified into returned values.
-/

set_option maxRecDepth 8192

namespace ResumeAnalysis

/-- Python strings, embedded as lists of characters. -/
abbrev Text := List Char

/-- Embed a Lean string literal as a `Text`. -/
def ofStr (s : String) : Text := s.toList

/-- Python's ASCII whitespace characters: the ASCII part of the set stripped by
`str.strip()` and matched by the regex class `\s`. -/
def isPyWs (c : Char) : Bool :=
  c == ' ' || c == '\t' || c == '\n' || c == '\r' || c == '\x0b' || c == '\x0c'

/-- `dropWhile` never lengthens a list (termination helper). -/
theorem length_dropWhile_le {α : Type} (p : α → Bool) (l : List α) :
    (l.dropWhile p).length ≤ l.length := by
  induction l with
  | nil => simp [List.dropWhile]
  | cons c r ih =>
      simp only [List.dropWhile]
      split
      · exact Nat.le_succ_of_le ih
      · exact Nat.le_refl _

/-- Python `str.strip()` (ASCII whitespace). -/
def stripChars (l : Text) : Text :=
  ((l.dropWhile isPyWs).reverse.dropWhile isPyWs).reverse

/-- Helper for `wordCount`: the flag records whether the previous character
was part of a word. -/
def wordCountAux : Bool → Text → Nat
  | _, [] => 0
  | inWord, c :: rest =>
      if isPyWs c then wordCountAux false rest
      else (if inWord then 0 else 1) + wordCountAux true rest

/-- Python `len(text.split())`: the number of maximal runs of
non-whitespace characters. -/
def wordCount (l : Text) : Nat := wordCountAux false l

/-- Does `hay` start with `needle`? -/
def leadsWith : Text → Text → Bool
  | [], _ => true
  | _ :: _, [] => false
  | a :: as, b :: bs => a == b && leadsWith as bs

/-- Python's `needle in hay` substring test. -/
def containsSeq (needle : Text) : Text → Bool
  | [] => needle.isEmpty
  | c :: rest => leadsWith needle (c :: rest) || containsSeq needle rest

/-- Python `str.lower()` (ASCII-faithful). -/
def pyLower (l : Text) : Text := l.map Char.toLower

/-- Python `str.upper()` (ASCII-faithful). -/
def pyUpper (l : Text) : Text := l.map Char.toUpper

/-- Python truthiness of an optional string (`None` and `""` are falsy). -/
def truthyOpt : Option Text → Bool
  | none => false
  | some s => !s.isEmpty

/-- Python's rendering `str(x)` of an optional string (f-string interpolation:
`None` renders as the text `None`). -/
def pyStrOpt : Option Text → Text
  | none => ofStr "None"
  | some s => s

/-!
## `test.py`, `display_score_overview` (lines 320–351)

The overall-assessment band shown next to the ATS score.  Scores are embedded
as rationals (`total_score / max_score * 100` is exact on the decimal inputs
involved, and Python's float comparison against the small integer constants
80/70/60/45 agrees with the rational comparison on all inputs representable
here).
-/

/-- The if/elif chain of `display_score_overview` selecting the assessment
label from the score percentage. -/
def assessmentBand (p : ℚ) : String :=
  if 80 ≤ p then "Excellent"
  else if 70 ≤ p then "Very Good"
  else if 60 ≤ p then "Good"
  else if 45 ≤ p then "Fair"
  else "Needs Work"

/-- `score_percentage = (total_score / max_score) * 100`. -/
def scorePercentage (totalScore maxScore : ℚ) : ℚ :=
  totalScore / maxScore * 100

/-- The band displayed by `display_score_overview`. -/
def displayScoreOverviewBand (totalScore maxScore : ℚ) : String :=
  assessmentBand (scorePercentage totalScore maxScore)

/-!
## `ai_analyzer.py`, `AIResumeAnalyzer`

The OpenAI transport is passed in explicitly: a call to
`openai.ChatCompletion.create` is embedded as applying the transport to the
message list (role/content pairs), returning either the response content or a
raised exception (`Except.error`).  Each analyzer method additionally returns
the list of transport calls it made, so that "no external call" is the
returned list being empty.
-/

/-- The exception classes `validate_api_connection` distinguishes, each
carrying its `str(e)` rendering. -/
inductive PyExc where
  | authenticationError (msg : Text)
  | rateLimitError (msg : Text)
  | apiError (msg : Text)
  | otherError (msg : Text)

/-- Python `str(e)` for an exception. -/
def PyExc.str : PyExc → Text
  | .authenticationError m => m
  | .rateLimitError m => m
  | .apiError m => m
  | .otherError m => m

/-- A chat message: role and content. -/
abbrev Message := Text × Text

/-- The external service: a message list goes in, either a response content
comes back or an exception is raised. -/
abbrev Transport := List Message → Except PyExc Text

/-- The `role_info` dict consumed by `_create_role_specific_prompt` (fields
read with `.get` and a default, so each is optional). -/
structure RoleInfo where
  coreSkills : Option (List Text)
  frameworks : Option (List Text)
  dailyTasks : Option (List Text)
  techStack : Option Text

/-- A weakness record as consumed by `_create_improvement_prompt` (fields
read with `.get` and a default, so each is optional). -/
structure WeaknessRec where
  weakness : Option Text
  whyProblematic : Option Text

/-- Python `', '.join(xs)`. -/
def joinComma (xs : List Text) : Text := List.intercalate (ofStr ", ") xs

/-- `_get_role_specific_system_prompt` (f-string; a `None` target role is
interpolated as the text `None`). -/
def getRoleSpecificSystemPrompt (targetRole : Option Text) : Text :=
  ofStr "You are a specialized technical hiring manager for " ++ pyStrOpt targetRole ++
  ofStr " positions with deep knowledge of:\n\n- " ++ pyStrOpt targetRole ++
  ofStr " industry requirements and standards\n- Current technology stacks and trending skills in " ++
  pyStrOpt targetRole ++
  ofStr "\n- Market demand and salary expectations for " ++ pyStrOpt targetRole ++
  ofStr "\n- Career progression paths in " ++ pyStrOpt targetRole ++
  ofStr " field\n- Common interview questions and technical assessments for " ++
  pyStrOpt targetRole ++
  ofStr "\n\nProvide highly technical and specific feedback tailored to " ++
  pyStrOpt targetRole ++
  ofStr " positions. Focus on what separates strong " ++ pyStrOpt targetRole ++
  ofStr " candidates from average ones. Be specific about technical gaps and market positioning."

/-- `target_info = f"\nTARGET ROLE: {target_role}" if target_role else ""`. -/
def targetInfo (targetRole : Option Text) : Text :=
  if truthyOpt targetRole then ofStr "\nTARGET ROLE: " ++ targetRole.getD [] else []

/-- The text of `_create_comprehensive_analysis_prompt` before the resume. -/
def comprehensivePromptHead : Text :=
  ofStr "Analyze this resume comprehensively and provide detailed, actionable insights.

RESUME CONTENT:
"

/-- The text of `_create_comprehensive_analysis_prompt` after the resume and
target-role line. -/
def comprehensivePromptTail : Text :=
  ofStr "

Provide detailed analysis in the following structure:

## EXECUTIVE SUMMARY
- Overall resume quality assessment (1-2 sentences)
- Primary strengths that make this candidate attractive
- Most critical weaknesses that hurt job prospects

## TECHNICAL COMPETENCY ANALYSIS
- Technical skill depth and breadth evaluation
- Industry-relevant skill alignment
- Missing critical technical competencies
- Recommendations for skill portfolio enhancement

## PROFESSIONAL PRESENTATION ASSESSMENT
- Experience description quality and impact
- Quantified achievement utilization
- Professional language and communication effectiveness
- Areas where presentation significantly hurts or helps candidacy

## ATS OPTIMIZATION EVALUATION
- Keyword density and relevance assessment
- Formatting and structure for ATS parsing
- Missing elements that cause ATS filtering issues
- Specific keyword additions needed

## COMPETITIVE POSITIONING ANALYSIS
- How this candidate compares to market competition
- Unique value propositions to emphasize
- Areas where candidate falls behind typical applicants
- Positioning strategy for different seniority levels

## PRIORITY ACTION PLAN
- Top 3 immediate improvements (next 1-2 weeks)
- Medium-term development priorities (1-3 months)
- Long-term career positioning strategy (3-12 months)

Be specific, direct, and actionable. Provide concrete examples and avoid generic advice."

/-- `_create_comprehensive_analysis_prompt` (lines 130–175): the resume text
enters truncated to its first 4000 characters. -/
def createComprehensiveAnalysisPrompt (resumeText : Text) (targetRole : Option Text) : Text :=
  comprehensivePromptHead ++ resumeText.take 4000 ++ targetInfo targetRole ++
    comprehensivePromptTail

/-- The text of `_create_role_specific_prompt` before the resume. -/
def roleSpecificPromptHead (targetRole : Text) : Text :=
  ofStr "Analyze this resume specifically for " ++ targetRole ++
  ofStr " positions with deep technical expertise.

RESUME CONTENT:
"

/-- The text of `_create_role_specific_prompt` after the resume. -/
def roleSpecificPromptTail (targetRole : Text) (roleInfo : RoleInfo) : Text :=
  let coreSkills := roleInfo.coreSkills.getD []
  let frameworks := roleInfo.frameworks.getD []
  let dailyTasks := roleInfo.dailyTasks.getD []
  let techStack := roleInfo.techStack.getD []
  ofStr "\n\n" ++ pyUpper targetRole ++
  ofStr " ROLE REQUIREMENTS:\n- Core Technical Skills: " ++ joinComma coreSkills ++
  ofStr "\n- Key Frameworks/Tools: " ++ joinComma frameworks ++
  ofStr "\n- Daily Responsibilities: " ++ joinComma dailyTasks ++
  ofStr "\n- Typical Tech Stack: " ++ techStack ++
  ofStr "

Provide detailed technical analysis:

## ROLE COMPATIBILITY ASSESSMENT
- Technical skill alignment percentage and detailed reasoning
- Experience relevance for " ++ targetRole ++
  ofStr " responsibilities
- Overall candidate fit assessment (Strong/Good/Fair/Poor)

## CRITICAL SKILL GAP ANALYSIS
- Must-have technical skills completely absent from resume
- Important skills mentioned but lacking depth/evidence
- Advanced " ++ targetRole ++
  ofStr " concepts missing that hurt seniority positioning
- Specific learning recommendations with priority ranking

## EXPERIENCE REPOSITIONING STRATEGY
- How to reframe current experience for maximum " ++ targetRole ++
  ofStr " relevance
- Project examples that would significantly strengthen applications
- Technical achievements to emphasize for " ++ targetRole ++
  ofStr " roles
- Experience gaps that limit " ++ targetRole ++
  ofStr " positioning

## TECHNICAL DEPTH ENHANCEMENT
- Areas where technical descriptions need significant detail
- Advanced " ++ targetRole ++
  ofStr " concepts to incorporate
- Industry-specific terminology and methodologies to add
- Technical storytelling improvements for " ++ targetRole ++
  ofStr " context

## " ++ pyUpper targetRole ++
  ofStr " MARKET POSITIONING
- Salary expectations based on demonstrated skills vs. market
- Seniority level positioning (Junior/Mid/Senior) with justification
- Competitive advantages to leverage in " ++ targetRole ++
  ofStr " applications
- Market disadvantages to address before applying

## " ++ pyUpper targetRole ++
  ofStr " INTERVIEW PREPARATION
- Technical concepts this candidate should master
- Common " ++ targetRole ++
  ofStr " interview questions they're unprepared for
- Portfolio/project recommendations specific to " ++ targetRole ++
  ofStr "
- Technical presentation and communication improvements needed

Be highly technical and specific to " ++ targetRole ++
  ofStr " field requirements. Focus on what separates competitive " ++ targetRole ++
  ofStr " candidates from average ones."

/-- `_create_role_specific_prompt` (lines 177–232): the resume text enters
truncated to its first 3500 characters. -/
def createRoleSpecificPrompt (resumeText : Text) (targetRole : Text)
    (roleInfo : RoleInfo) : Text :=
  roleSpecificPromptHead targetRole ++ resumeText.take 3500 ++
    roleSpecificPromptTail targetRole roleInfo

/-- One summarized weakness line of `_create_improvement_prompt`:
`f"- {weakness.get('weakness', 'Unknown weakness')}: {weakness.get('why_problematic', 'Impacts job prospects')}"`. -/
def weaknessLine (w : WeaknessRec) : Text :=
  ofStr "- " ++ w.weakness.getD (ofStr "Unknown weakness") ++ ofStr ": " ++
    w.whyProblematic.getD (ofStr "Impacts job prospects")

/-- `weaknesses_text`: the first five weakness records, one summary line each,
joined with newlines. -/
def weaknessesText (ws : List WeaknessRec) : Text :=
  List.intercalate (ofStr "\n") ((ws.take 5).map weaknessLine)

/-- The text of `_create_improvement_prompt` after the weakness block. -/
def improvementPromptTail : Text :=
  ofStr "

Provide detailed improvement recommendations:

## IMMEDIATE CRITICAL FIXES (Next 1-2 weeks)
- Specific changes that prevent automatic rejection
- Exact language/content to add or modify
- Formatting improvements for ATS compatibility

## CONTENT ENHANCEMENT STRATEGY (Next 1-2 months)
- Experience description improvements with specific examples
- Quantified achievement additions with suggested metrics
- Technical skill section optimization
- Project portfolio development recommendations

## LONG-TERM PROFESSIONAL DEVELOPMENT (3-6 months)
- Skill development priorities with learning resources
- Professional certification recommendations
- Portfolio project suggestions
- Networking and industry engagement strategies

## SPECIFIC LANGUAGE IMPROVEMENTS
- Replace weak phrases with stronger alternatives
- Add industry-specific terminology and keywords
- Improve action verb usage with specific suggestions
- Enhance technical depth in descriptions

For each recommendation, provide:
- WHY this change is important
- HOW to implement it specifically
- WHEN to prioritize it
- WHAT impact it will have on job prospects

Be extremely specific and actionable. Provide exact phrases, keywords, and formatting suggestions where possible."

/-- The text of `_create_improvement_prompt` before the resume. -/
def improvementPromptHead : Text :=
  ofStr "Based on this resume and identified weaknesses, provide a comprehensive improvement action plan.

RESUME CONTENT:
"

/-- `_create_improvement_prompt` (lines 234–282): the resume text enters
truncated to its first 3000 characters, the weaknesses as at most five
summary lines. -/
def createImprovementPrompt (resumeText : Text) (weaknessesAnalysis : List WeaknessRec) : Text :=
  improvementPromptHead ++ resumeText.take 3000 ++
    (ofStr "\n\nKEY WEAKNESSES IDENTIFIED:\n" ++ weaknessesText weaknessesAnalysis ++
      improvementPromptTail)

/-- The fixed no-credential message of `get_comprehensive_ai_analysis`. -/
def aiAnalysisNoKeyMsg : Text :=
  ofStr "AI analysis requires OpenAI API key. Please configure your API key to access detailed AI insights."

/-- The fixed no-credential message of `get_improvement_recommendations`. -/
def improvementNoKeyMsg : Text :=
  ofStr "AI improvement recommendations require OpenAI API key."

/-- `get_comprehensive_ai_analysis` (lines 28–65).  Returns the analysis text
together with the list of transport calls made. -/
def getComprehensiveAiAnalysis (apiKey : Option Text) (transport : Transport)
    (resumeText : Text) (targetRole : Option Text) : Text × List (List Message) :=
  if !truthyOpt apiKey then (aiAnalysisNoKeyMsg, [])
  else
    let prompt := createComprehensiveAnalysisPrompt resumeText targetRole
    let messages : List Message :=
      [(ofStr "system", getRoleSpecificSystemPrompt targetRole), (ofStr "user", prompt)]
    match transport messages with
    | .ok content => (stripChars content, [messages])
    | .error e => (ofStr "Role-specific AI analysis unavailable: " ++ e.str, [messages])

/-- The fixed system prompt of `get_improvement_recommendations`. -/
def improvementSystemPrompt : Text :=
  ofStr "You are an expert career coach specializing in resume optimization and professional development. Provide specific, actionable improvement recommendations."

/-- `get_improvement_recommendations` (lines 67–104).  Returns the
recommendation text together with the list of transport calls made. -/
def getImprovementRecommendations (apiKey : Option Text) (transport : Transport)
    (resumeText : Text) (weaknessesAnalysis : List WeaknessRec) : Text × List (List Message) :=
  if !truthyOpt apiKey then (improvementNoKeyMsg, [])
  else
    let prompt := createImprovementPrompt resumeText weaknessesAnalysis
    let messages : List Message :=
      [(ofStr "system", improvementSystemPrompt), (ofStr "user", prompt)]
    match transport messages with
    | .ok content => (stripChars content, [messages])
    | .error e => (ofStr "AI improvement recommendations unavailable: " ++ e.str, [messages])

/-- The message list of `validate_api_connection`'s test call. -/
def validateTestMessages : List Message := [(ofStr "user", ofStr "Test")]

/-- `validate_api_connection` (lines 284–309). -/
def validateApiConnection (apiKey : Option Text) (transport : Transport) : Bool × Text :=
  if !truthyOpt apiKey then (false, ofStr "No API key provided")
  else
    match transport validateTestMessages with
    | .ok _ => (true, ofStr "API key validated successfully")
    | .error (.authenticationError _) =>
        (false, ofStr "Invalid API key - please check your OpenAI API key")
    | .error (.rateLimitError _) =>
        (false, ofStr "API rate limit exceeded - please try again later")
    | .error (.apiError m) => (false, ofStr "API error: " ++ m)
    | .error (.otherError m) => (false, ofStr "Connection error: " ++ m)

/-- The message `validate_api_connection` returns for each caught exception
class. -/
def validateFailureMessage : PyExc → Text
  | .authenticationError _ => ofStr "Invalid API key - please check your OpenAI API key"
  | .rateLimitError _ => ofStr "API rate limit exceeded - please try again later"
  | .apiError m => ofStr "API error: " ++ m
  | .otherError m => ofStr "Connection error: " ++ m

/-- The dict returned by `get_analysis_cost_estimate` (`cost_breakdown`
flattened into the three token fields). -/
structure CostEstimate where
  estimatedTokens : Nat
  estimatedCostUsd : ℚ
  analysisTypes : List String
  inputTokens : Nat
  outputTokens : Nat
  totalTokens : Nat

/-- Python `round(x, 4)` on an exact rational (round-half-to-even drift from
Python floats does not affect the sign, the only property used here). -/
def round4 (q : ℚ) : ℚ := (round (q * 10000) : ℚ) / 10000

/-- `get_analysis_cost_estimate` (lines 311–347). -/
def getAnalysisCostEstimate (resumeText : Text) (targetRole : Option Text) : CostEstimate :=
  let resumeTokens := resumeText.length / 4
  let promptTokens := 1000
  let responseTokens := 1500
  let totalTokens := resumeTokens + promptTokens + responseTokens
  let costPer1kTokens : ℚ := 2 / 1000
  let baseCost : ℚ := ((totalTokens : ℚ) / 1000) * costPer1kTokens
  let estimatedCost : ℚ := if truthyOpt targetRole then baseCost * (3 / 2) else baseCost
  let analysisTypes :=
    if truthyOpt targetRole then ["Comprehensive Analysis", "Role-Specific Analysis"]
    else ["Comprehensive Analysis"]
  { estimatedTokens := totalTokens
    estimatedCostUsd := round4 estimatedCost
    analysisTypes := analysisTypes
    inputTokens := resumeTokens + promptTokens
    outputTokens := responseTokens
    totalTokens := totalTokens }

/-!
## `pdf_extractor.py`, `PDFExtractor`

`extract_text_from_pdf` is embedded over an explicit description of the
uploaded file: its optional `size` attribute and the outcome of reading it
with `PdfReader` (a raised exception, or the page list, where each page's
`extract_text()` either returns a string or raises).  Python's `None` return
paired with the distinct `st.error` report is embedded as
`Except ExtractFailure Text`: `.error c` is "returns `None` after reporting
condition `c`".
-/

/-- The outcome of `page.extract_text()` for one page. -/
inductive PageResult where
  | text (s : Text)
  | failure (e : Text)

/-- The uploaded file as `extract_text_from_pdf` observes it. -/
structure PdfFile where
  size : Option Nat
  readResult : Except Text (List PageResult)

/-- The distinct failure conditions `extract_text_from_pdf` reports before
returning `None`. -/
inductive ExtractFailure where
  | noFile
  | oversized
  | emptyOrCorrupted
  | noReadableText
  | readError (msg : Text)

/-- The report accompanying each failure condition (the `st.error` text, or
the log message for the no-file case). -/
def failureMessage : ExtractFailure → Text
  | .noFile => ofStr "No PDF file provided"
  | .oversized => ofStr "PDF file too large. Please upload a file smaller than 10MB."
  | .emptyOrCorrupted => ofStr "PDF file appears to be empty or corrupted."
  | .noReadableText =>
      ofStr "No readable text found in the PDF. Please ensure the PDF contains text (not just images)."
  | .readError e => ofStr "PDF processing failed: Error reading PDF file: " ++ e

/-- The page loop of `extract_text_from_pdf`: pages whose text is truthy and
non-blank are appended followed by a newline; blank pages and pages whose
extraction raises are skipped. -/
def pageLoop (pages : List PageResult) : Text :=
  pages.foldl
    (fun acc p =>
      match p with
      | .text s => if !s.isEmpty && !(stripChars s).isEmpty then acc ++ s ++ [ '\n' ] else acc
      | .failure _ => acc)
    []

/-- The size guard: `hasattr(pdf_file, 'size') and pdf_file.size > 10 * 1024 * 1024`. -/
def oversizedGuard (f : PdfFile) : Bool :=
  match f.size with
  | some n => decide (10 * 1024 * 1024 < n)
  | none => false

/-- `extract_text_from_pdf` (lines 28–81). -/
def extractTextFromPdf (pdfFile : Option PdfFile) : Except ExtractFailure Text :=
  match pdfFile with
  | none => .error .noFile
  | some f =>
      if oversizedGuard f then .error .oversized
      else
        match f.readResult with
        | .error e => .error (.readError e)
        | .ok pages =>
            if pages.isEmpty then .error .emptyOrCorrupted
            else
              let extracted := pageLoop pages
              if (stripChars extracted).isEmpty then .error .noReadableText
              else .ok extracted

/-- The resume-indicator vocabulary of `validate_resume_content`. -/
def resumeIndicators : List Text :=
  [ofStr "experience", ofStr "education", ofStr "skills", ofStr "work",
   ofStr "employment", ofStr "university", ofStr "college", ofStr "degree",
   ofStr "project", ofStr "internship", ofStr "software", ofStr "technical",
   ofStr "programming", ofStr "development"]

/-- `validate_resume_content` (lines 84–118): `(is_valid, validation_message)`. -/
def validateResumeContent (text : Text) : Bool × Text :=
  if text.isEmpty || decide ((stripChars text).length < 100) then
    (false, ofStr "Document too short to be a comprehensive resume")
  else
    let textLower := pyLower text
    let foundIndicators := resumeIndicators.filter (fun ind => containsSeq ind textLower)
    if foundIndicators.length < 3 then
      (false, ofStr "Content may not be a resume. Found only " ++
        ofStr (toString foundIndicators.length) ++ ofStr " resume indicators.")
    else
      let wc := wordCount text
      if wc < 200 then
        (false, ofStr "Resume too short (" ++ ofStr (toString wc) ++
          ofStr " words). Professional resumes typically contain 300-1000 words.")
      else if 2000 < wc then
        (true, ofStr "Resume is quite long (" ++ ofStr (toString wc) ++
          ofStr " words). Consider condensing for better ATS performance.")
      else
        (true, ofStr "Resume validation successful. Document contains " ++
          ofStr (toString wc) ++ ofStr " words.")

/-!
## `test.py`, `main` (lines 148–197)

The analysis branch of `main` after the user clicks analyze with a file
uploaded: extraction, content validation, section extraction and the
`analysis_complete` flag.  Streamlit effects are reified into a trace.
-/

/-- Observable trace of one run of the analysis branch of `main`. -/
structure PipelineTrace where
  aborted : Bool
  warnings : List Text
  successes : List Text
  ranSectionExtraction : Bool
  analysisComplete : Bool

/-- The trace of the early `return` after a failed or empty extraction. -/
def abortTrace : PipelineTrace :=
  { aborted := true, warnings := [], successes := [],
    ranSectionExtraction := false, analysisComplete := false }

/-- The analysis branch of `main`: extraction result in, trace out.  A falsy
(`None` or empty) extraction aborts; otherwise validation issues at most a
warning, section extraction runs, and `analysis_complete` is set. -/
def runAnalysisPipeline (extractResult : Except ExtractFailure Text) : PipelineTrace :=
  match extractResult with
  | .error _ => abortTrace
  | .ok t =>
      if t.isEmpty then abortTrace
      else
        let v := validateResumeContent t
        { aborted := false
          warnings := if v.1 then [] else [ofStr "Content validation: " ++ v.2]
          successes := if v.1 then [v.2] else []
          ranSectionExtraction := true
          analysisComplete := true }

/-!
## `pdf_extractor.py`, `preprocess_text` (lines 120–153)

The cleaning pipeline: split into lines, strip each line, drop empty lines,
rejoin with newlines (`step1`); collapse every whitespace run to one space
(`collapseWs`, the `re.sub(r'\s+', ' ', …)`); and restore paragraph breaks
(`restoreBreaks`, the `re.sub(r'([.!?])\s+([A-Z])', r'\1\n\n\2', …)` — since
the three character classes punctuation / whitespace / `A–Z` are pairwise
disjoint, regex matches never overlap and the substitution replaces every
occurrence of punctuation, a whitespace run, then an uppercase letter).
-/

/-- Apply `f` to the first element of a list, if any. -/
def mapHead (f : Text → Text) : List Text → List Text
  | [] => []
  | g :: gs => f g :: gs

/-- Python `text.split('\n')`: split at every newline, keeping empty pieces. -/
def pySplitNl : Text → List Text
  | [] => [[]]
  | c :: rest =>
      if c = '\n' then [] :: pySplitNl rest
      else mapHead (fun g => c :: g) (pySplitNl rest)

/-- Lines 135–144 of `preprocess_text`: split into lines, strip each, keep the
non-empty ones, join with newlines. -/
def step1 (l : Text) : Text :=
  List.intercalate [ '\n' ] (((pySplitNl l).map stripChars).filter (fun x => !x.isEmpty))

/-- `re.sub(r'\s+', ' ', …)`: every maximal whitespace run becomes one
space. -/
def collapseWs : Text → Text
  | [] => []
  | c :: rest =>
      if isPyWs c then ' ' :: collapseWs (rest.dropWhile isPyWs)
      else c :: collapseWs rest
termination_by l => l.length
decreasing_by
  · simp only [List.length_cons]
    exact Nat.lt_succ_of_le (length_dropWhile_le _ _)
  · simp only [List.length_cons]; exact Nat.lt_succ_self _

/-- The regex class `[.!?]`. -/
def isPunctEnd (c : Char) : Bool := c == '.' || c == '!' || c == '?'

/-- The regex class `[A-Z]`. -/
def isUpperAZ (c : Char) : Bool := decide ('A' ≤ c) && decide (c ≤ 'Z')

/-- After a `[.!?]` character, does `\s+[A-Z]` match?  If so, return the
uppercase letter and the text after it. -/
def matchWsUpper (rest : Text) : Option (Char × Text) :=
  match rest.dropWhile isPyWs with
  | u :: tail =>
      if !(rest.takeWhile isPyWs).isEmpty && isUpperAZ u then some (u, tail) else none
  | [] => none

/-- A successful `\s+[A-Z]` match consumes at least two characters
(termination helper). -/
theorem matchWsUpper_some_length {rest : Text} {u : Char} {tail : Text}
    (h : matchWsUpper rest = some (u, tail)) : tail.length < rest.length := by
  unfold matchWsUpper at h
  split at h
  · rename_i v t hd
    split at h
    · rename_i hc
      obtain ⟨rfl, rfl⟩ : v = u ∧ t = tail := by
        simpa using h
      have hsplit := List.takeWhile_append_dropWhile (p := isPyWs) (l := rest)
      have htw : (rest.takeWhile isPyWs).length ≠ 0 := by
        simp only [Bool.and_eq_true, Bool.not_eq_true'] at hc
        simpa [List.length_eq_zero] using hc.1
      have hlen := congrArg List.length hsplit
      simp only [List.length_append, hd, List.length_cons] at hlen
      omega
    · exact absurd h (by simp)
  · exact absurd h (by simp)

/-- `re.sub(r'([.!?])\s+([A-Z])', r'\1\n\n\2', …)`: left-to-right replacement
of every (automatically non-overlapping) match. -/
def restoreBreaks : Text → Text
  | [] => []
  | c :: rest =>
      if isPunctEnd c then
        match h : matchWsUpper rest with
        | some (u, tail) => c :: '\n' :: '\n' :: u :: restoreBreaks tail
        | none => c :: restoreBreaks rest
      else c :: restoreBreaks rest
termination_by l => l.length
decreasing_by
  · simp only [List.length_cons]
    exact Nat.lt_succ_of_lt (matchWsUpper_some_length h)
  · simp only [List.length_cons]; exact Nat.lt_succ_self _
  · simp only [List.length_cons]; exact Nat.lt_succ_self _

/-- `preprocess_text` (lines 120–153): falsy input returns the empty string,
otherwise the three cleaning passes run in order. -/
def preprocessText (l : Text) : Text :=
  if l.isEmpty then [] else restoreBreaks (collapseWs (step1 l))

/-- A word: a non-empty run of non-whitespace characters. -/
def IsWord (w : Text) : Prop := w ≠ [] ∧ ∀ c ∈ w, isPyWs c = false

/-- A list of words. -/
def AreWords (ws : List Text) : Prop := ∀ w ∈ ws, IsWord w

/-- Words joined by single spaces: the normal form of `collapseWs` output on
edge-clean input. -/
def wordsJoin (ws : List Text) : Text := List.intercalate [ ' ' ] ws

/-- Does the paragraph-break substitution fire between two adjacent words? -/
def isBreak (w w' : Text) : Bool :=
  match w.getLast?, w'.head? with
  | some c, some u => isPunctEnd c && isUpperAZ u
  | _, _ => false

/-- Words joined by the separators `restoreBreaks` leaves: a double newline at
break positions, a single space elsewhere. -/
def interSep : List Text → Text
  | [] => []
  | [w] => w
  | w :: w' :: rest =>
      w ++ (if isBreak w w' then [ '\n', '\n' ] else [ ' ' ]) ++ interSep (w' :: rest)

/-- Words joined with the separators after pass 2's line splitting rejoins
them: a single newline at break positions, a single space elsewhere. -/
def interSepNl : List Text → Text
  | [] => []
  | [w] => w
  | w :: w' :: rest =>
      w ++ (if isBreak w w' then [ '\n' ] else [ ' ' ]) ++ interSepNl (w' :: rest)

/-- The raw line list `pySplitNl` produces on `interSep ws`. -/
def lineView : List Text → List Text
  | [] => [[]]
  | [w] => [w]
  | w :: w' :: rest =>
      if isBreak w w' then w :: [] :: lineView (w' :: rest)
      else mapHead (fun g => w ++ ' ' :: g) (lineView (w' :: rest))

/-- The stripped, non-empty lines of `interSep ws`: word groups joined by
single spaces, one group per paragraph. -/
def groups : List Text → List Text
  | [] => []
  | [w] => [w]
  | w :: w' :: rest =>
      if isBreak w w' then w :: groups (w' :: rest)
      else mapHead (fun g => w ++ ' ' :: g) (groups (w' :: rest))

/-- C1: for every `total_score` and `max_score` with `max_score > 0`, the band
shown by `display_score_overview` is determined from the percentage
`total_score / max_score * 100` by the fixed boundaries 45, 60, 70, 80:
`≥ 80` yields "Excellent", `[70, 80)` yields "Very Good", `[60, 70)` yields
"Good", `[45, 60)` yields "Fair", and `< 45` yields "Needs Work", with all
four boundary values exact. -/
theorem display_score_overview_band_characterization
    (t m : ℚ) (hm : 0 < m) :
    (displayScoreOverviewBand t m = "Excellent" ↔ 80 ≤ scorePercentage t m) ∧
    (displayScoreOverviewBand t m = "Very Good" ↔
      70 ≤ scorePercentage t m ∧ scorePercentage t m < 80) ∧
    (displayScoreOverviewBand t m = "Good" ↔
      60 ≤ scorePercentage t m ∧ scorePercentage t m < 70) ∧
    (displayScoreOverviewBand t m = "Fair" ↔
      45 ≤ scorePercentage t m ∧ scorePercentage t m < 60) ∧
    (displayScoreOverviewBand t m = "Needs Work" ↔ scorePercentage t m < 45) := by
  have hEV : ("Excellent" : String) ≠ "Very Good" := by decide
  have hEG : ("Excellent" : String) ≠ "Good" := by decide
  have hEF : ("Excellent" : String) ≠ "Fair" := by decide
  have hEN : ("Excellent" : String) ≠ "Needs Work" := by decide
  have hVG : ("Very Good" : String) ≠ "Good" := by decide
  have hVF : ("Very Good" : String) ≠ "Fair" := by decide
  have hVN : ("Very Good" : String) ≠ "Needs Work" := by decide
  have hGF : ("Good" : String) ≠ "Fair" := by decide
  have hGN : ("Good" : String) ≠ "Needs Work" := by decide
  have hFN : ("Fair" : String) ≠ "Needs Work" := by decide
  unfold displayScoreOverviewBand assessmentBand
  split_ifs with h1 h2 h3 h4 <;>
    refine ⟨?_, ?_, ?_, ?_, ?_⟩ <;>
    constructor <;>
    intro h <;>
    first
      | rfl
      | linarith
      | (exfalso; first
          | exact hEV h | exact hEG h | exact hEF h | exact hEN h
          | exact hVG h | exact hVF h | exact hVN h
          | exact hGF h | exact hGN h | exact hFN h
          | exact hEV h.symm | exact hEG h.symm | exact hEF h.symm
          | exact hEN h.symm | exact hVG h.symm | exact hVF h.symm
          | exact hVN h.symm | exact hGF h.symm | exact hGN h.symm
          | exact hFN h.symm
          | linarith | (rcases h with ⟨ha, hb⟩; linarith))
      | (constructor <;> linarith)

/-- C1 witness: boundary behaviour at 44.9 %, 45 %, 59.9 %, 60 %, 69.9 %,
70 %, 79.9 % and 80 % (scores out of 1000). -/
theorem display_score_overview_band_witness :
    displayScoreOverviewBand 449 1000 = "Needs Work" ∧
    displayScoreOverviewBand 450 1000 = "Fair" ∧
    displayScoreOverviewBand 599 1000 = "Fair" ∧
    displayScoreOverviewBand 600 1000 = "Good" ∧
    displayScoreOverviewBand 699 1000 = "Good" ∧
    displayScoreOverviewBand 700 1000 = "Very Good" ∧
    displayScoreOverviewBand 799 1000 = "Very Good" ∧
    displayScoreOverviewBand 800 1000 = "Excellent" := by
  have h0 : (0 : ℚ) < 1000 := by norm_num
  refine ⟨((display_score_overview_band_characterization 449 1000 h0).2.2.2.2).mpr ?_,
    ((display_score_overview_band_characterization 450 1000 h0).2.2.2.1).mpr ?_,
    ((display_score_overview_band_characterization 599 1000 h0).2.2.2.1).mpr ?_,
    ((display_score_overview_band_characterization 600 1000 h0).2.2.1).mpr ?_,
    ((display_score_overview_band_characterization 699 1000 h0).2.2.1).mpr ?_,
    ((display_score_overview_band_characterization 700 1000 h0).2.1).mpr ?_,
    ((display_score_overview_band_characterization 799 1000 h0).2.1).mpr ?_,
    ((display_score_overview_band_characterization 800 1000 h0).1).mpr ?_⟩ <;>
  norm_num [scorePercentage]

/-- C2: with no API key configured (`None` or the falsy empty string), both
`get_comprehensive_ai_analysis` and `get_improvement_recommendations` return
their fixed "requires API key" message, make no transport call (the returned
call list is empty) and do not raise (they are total and return normally,
whatever the transport would have done). -/
theorem no_api_key_fixed_message_no_call
    (apiKey : Option Text) (transport : Transport) (resumeText : Text)
    (targetRole : Option Text) (ws : List WeaknessRec)
    (h : truthyOpt apiKey = false) :
    getComprehensiveAiAnalysis apiKey transport resumeText targetRole =
      (aiAnalysisNoKeyMsg, []) ∧
    getImprovementRecommendations apiKey transport resumeText ws =
      (improvementNoKeyMsg, []) := by
  constructor <;> simp [getComprehensiveAiAnalysis, getImprovementRecommendations, h]

/-- C2 witness: the unset key with a transport that would raise. -/
theorem no_api_key_fixed_message_no_call_witness :
    getComprehensiveAiAnalysis none (fun _ => .error (.otherError (ofStr "boom")))
        (ofStr "resume") none = (aiAnalysisNoKeyMsg, []) ∧
    getImprovementRecommendations none (fun _ => .error (.otherError (ofStr "boom")))
        (ofStr "resume") [] = (improvementNoKeyMsg, []) :=
  no_api_key_fixed_message_no_call none (fun _ => .error (.otherError (ofStr "boom")))
    (ofStr "resume") none [] rfl

/-- C3: no call into the text-generation collaborator raises past the call
boundary.  For every key, transport behaviour and input, each of the three
entry points returns normally, and the result is exhaustively one of: the
fixed no-key reply, the successful reply, or a user-facing string carrying the
failure category (the generic prefixed message for the two analysis calls; the
authentication / rate-limit / API / generic connection message for
`validate_api_connection`). -/
theorem ai_call_boundary_never_raises
    (apiKey : Option Text) (transport : Transport) (resumeText : Text)
    (targetRole : Option Text) (ws : List WeaknessRec) :
    ((getComprehensiveAiAnalysis apiKey transport resumeText targetRole).1 =
        aiAnalysisNoKeyMsg ∨
      (∃ c, transport [(ofStr "system", getRoleSpecificSystemPrompt targetRole),
            (ofStr "user", createComprehensiveAnalysisPrompt resumeText targetRole)] =
            .ok c ∧
        (getComprehensiveAiAnalysis apiKey transport resumeText targetRole).1 =
          stripChars c) ∨
      (∃ e, transport [(ofStr "system", getRoleSpecificSystemPrompt targetRole),
            (ofStr "user", createComprehensiveAnalysisPrompt resumeText targetRole)] =
            .error e ∧
        (getComprehensiveAiAnalysis apiKey transport resumeText targetRole).1 =
          ofStr "Role-specific AI analysis unavailable: " ++ e.str)) ∧
    ((getImprovementRecommendations apiKey transport resumeText ws).1 =
        improvementNoKeyMsg ∨
      (∃ c, transport [(ofStr "system", improvementSystemPrompt),
            (ofStr "user", createImprovementPrompt resumeText ws)] = .ok c ∧
        (getImprovementRecommendations apiKey transport resumeText ws).1 =
          stripChars c) ∨
      (∃ e, transport [(ofStr "system", improvementSystemPrompt),
            (ofStr "user", createImprovementPrompt resumeText ws)] = .error e ∧
        (getImprovementRecommendations apiKey transport resumeText ws).1 =
          ofStr "AI improvement recommendations unavailable: " ++ e.str)) ∧
    (validateApiConnection apiKey transport = (false, ofStr "No API key provided") ∨
      validateApiConnection apiKey transport =
        (true, ofStr "API key validated successfully") ∨
      (∃ e, transport validateTestMessages = .error e ∧
        validateApiConnection apiKey transport = (false, validateFailureMessage e))) := by
  refine ⟨?_, ?_, ?_⟩
  · by_cases h : truthyOpt apiKey
    · rcases hc : transport [(ofStr "system", getRoleSpecificSystemPrompt targetRole),
          (ofStr "user", createComprehensiveAnalysisPrompt resumeText targetRole)] with e | c
      · exact Or.inr (Or.inr ⟨e, rfl, by simp [getComprehensiveAiAnalysis, h, hc]⟩)
      · exact Or.inr (Or.inl ⟨c, rfl, by simp [getComprehensiveAiAnalysis, h, hc]⟩)
    · exact Or.inl (by simp [getComprehensiveAiAnalysis, h])
  · by_cases h : truthyOpt apiKey
    · rcases hc : transport [(ofStr "system", improvementSystemPrompt),
          (ofStr "user", createImprovementPrompt resumeText ws)] with e | c
      · exact Or.inr (Or.inr ⟨e, rfl, by simp [getImprovementRecommendations, h, hc]⟩)
      · exact Or.inr (Or.inl ⟨c, rfl, by simp [getImprovementRecommendations, h, hc]⟩)
    · exact Or.inl (by simp [getImprovementRecommendations, h])
  · by_cases h : truthyOpt apiKey
    · rcases hc : transport validateTestMessages with e | c
      · refine Or.inr (Or.inr ⟨e, rfl, ?_⟩)
        cases e <;> simp [validateApiConnection, h, hc, validateFailureMessage]
      · exact Or.inr (Or.inl (by simp [validateApiConnection, h, hc]))
    · exact Or.inl (by simp [validateApiConnection, h])

/-- C6: each prompt embeds the resume text truncated to its fixed per-call
character budget (4000 for the comprehensive prompt, 3500 for the
role-specific prompt, 3000 for the improvement prompt): each prompt contains
the truncated resume verbatim, and the prompt is unchanged when the resume is
replaced by its truncation — so characters beyond the budget never influence
the prompt. -/
theorem prompts_truncate_resume_text
    (resumeText : Text) (targetRoleOpt : Option Text) (targetRole : Text)
    (roleInfo : RoleInfo) (ws : List WeaknessRec) :
    createComprehensiveAnalysisPrompt resumeText targetRoleOpt =
      createComprehensiveAnalysisPrompt (resumeText.take 4000) targetRoleOpt ∧
    createRoleSpecificPrompt resumeText targetRole roleInfo =
      createRoleSpecificPrompt (resumeText.take 3500) targetRole roleInfo ∧
    createImprovementPrompt resumeText ws =
      createImprovementPrompt (resumeText.take 3000) ws ∧
    (∃ pre post, createComprehensiveAnalysisPrompt resumeText targetRoleOpt =
      pre ++ resumeText.take 4000 ++ post) ∧
    (∃ pre post, createRoleSpecificPrompt resumeText targetRole roleInfo =
      pre ++ resumeText.take 3500 ++ post) ∧
    (∃ pre post, createImprovementPrompt resumeText ws =
      pre ++ resumeText.take 3000 ++ post) := by
  refine ⟨?_, ?_, ?_, ?_, ?_, ?_⟩
  · simp [createComprehensiveAnalysisPrompt, List.take_take]
  · simp [createRoleSpecificPrompt, List.take_take]
  · simp [createImprovementPrompt, List.take_take]
  · exact ⟨comprehensivePromptHead,
      targetInfo targetRoleOpt ++ comprehensivePromptTail,
      by simp [createComprehensiveAnalysisPrompt]⟩
  · exact ⟨roleSpecificPromptHead targetRole,
      roleSpecificPromptTail targetRole roleInfo,
      by simp [createRoleSpecificPrompt]⟩
  · exact ⟨improvementPromptHead,
      ofStr "\n\nKEY WEAKNESSES IDENTIFIED:\n" ++ weaknessesText ws ++
        improvementPromptTail,
      by simp [createImprovementPrompt]⟩

/-- C7: `_create_improvement_prompt` summarizes at most the first five
weakness records: the prompt is unchanged when the record list is replaced by
its first five records (records at index 5 and beyond never appear); the
summarized block — one line per kept record, built from the `weakness` and
`why_problematic` fields — appears in the prompt verbatim; and a record with
both fields missing is summarized with the default texts rather than raising
(the function is total). -/
theorem improvement_prompt_summarizes_first_five
    (resumeText : Text) (ws : List WeaknessRec) :
    createImprovementPrompt resumeText ws =
      createImprovementPrompt resumeText (ws.take 5) ∧
    (∃ pre post, createImprovementPrompt resumeText ws =
      pre ++ List.intercalate (ofStr "\n") ((ws.take 5).map weaknessLine) ++ post) ∧
    weaknessLine ⟨none, none⟩ = ofStr "- Unknown weakness: Impacts job prospects" := by
  refine ⟨?_, ?_, ?_⟩
  · simp [createImprovementPrompt, weaknessesText, List.take_take]
  · exact ⟨improvementPromptHead ++ resumeText.take 3000 ++
        ofStr "\n\nKEY WEAKNESSES IDENTIFIED:\n",
      improvementPromptTail,
      by simp [createImprovementPrompt, weaknessesText]⟩
  · decide

/-- C10: the estimate returned by `get_analysis_cost_estimate` is internally
consistent and input-determined: `input_tokens + output_tokens = total_tokens
= estimated_tokens = len(resume_text) // 4 + 2500`, the estimated cost is
non-negative, and `analysis_types` contains "Role-Specific Analysis" exactly
when the target role is set (truthy) and is the single-element list
["Comprehensive Analysis"] otherwise. -/
theorem cost_estimate_consistent (resumeText : Text) (targetRole : Option Text) :
    (getAnalysisCostEstimate resumeText targetRole).inputTokens +
        (getAnalysisCostEstimate resumeText targetRole).outputTokens =
      (getAnalysisCostEstimate resumeText targetRole).totalTokens ∧
    (getAnalysisCostEstimate resumeText targetRole).totalTokens =
      (getAnalysisCostEstimate resumeText targetRole).estimatedTokens ∧
    (getAnalysisCostEstimate resumeText targetRole).estimatedTokens =
      resumeText.length / 4 + 2500 ∧
    0 ≤ (getAnalysisCostEstimate resumeText targetRole).estimatedCostUsd ∧
    (("Role-Specific Analysis" ∈
        (getAnalysisCostEstimate resumeText targetRole).analysisTypes) ↔
      truthyOpt targetRole = true) ∧
    (truthyOpt targetRole = false →
      (getAnalysisCostEstimate resumeText targetRole).analysisTypes =
        ["Comprehensive Analysis"]) := by
  have hnn : ∀ q : ℚ, 0 ≤ q → 0 ≤ round4 q := by
    intro q hq
    unfold round4
    have h1 : (0 : ℚ) ≤ q * 10000 := by positivity
    have h2 : (0 : ℤ) ≤ round (q * 10000) := by
      rw [round_eq]
      rw [Int.le_floor]
      push_cast
      linarith
    have h3 : (0 : ℚ) ≤ (round (q * 10000) : ℚ) := by exact_mod_cast h2
    positivity
  refine ⟨?_, ?_, ?_, ?_, ?_, ?_⟩
  · simp [getAnalysisCostEstimate]
  · simp [getAnalysisCostEstimate]
  · simp [getAnalysisCostEstimate]
  · by_cases h : truthyOpt targetRole <;>
      · simp only [getAnalysisCostEstimate, h]
        apply hnn
        positivity
  · by_cases h : truthyOpt targetRole <;> simp [getAnalysisCostEstimate, h]
  · intro h; simp [getAnalysisCostEstimate, h]

/-- C10 witness: a 10-character resume with no target role. -/
theorem cost_estimate_consistent_witness :
    (getAnalysisCostEstimate (ofStr "0123456789") none).inputTokens +
        (getAnalysisCostEstimate (ofStr "0123456789") none).outputTokens =
      (getAnalysisCostEstimate (ofStr "0123456789") none).totalTokens ∧
    (getAnalysisCostEstimate (ofStr "0123456789") none).totalTokens =
      (getAnalysisCostEstimate (ofStr "0123456789") none).estimatedTokens ∧
    (getAnalysisCostEstimate (ofStr "0123456789") none).estimatedTokens =
      (ofStr "0123456789").length / 4 + 2500 ∧
    0 ≤ (getAnalysisCostEstimate (ofStr "0123456789") none).estimatedCostUsd ∧
    (("Role-Specific Analysis" ∈
        (getAnalysisCostEstimate (ofStr "0123456789") none).analysisTypes) ↔
      truthyOpt none = true) ∧
    (truthyOpt none = false →
      (getAnalysisCostEstimate (ofStr "0123456789") none).analysisTypes =
        ["Comprehensive Analysis"]) :=
  cost_estimate_consistent (ofStr "0123456789") none

/-- A prefix match survives extending the haystack on the right. -/
theorem leadsWith_append (n a b : Text) (h : leadsWith n a = true) :
    leadsWith n (a ++ b) = true := by
  induction n generalizing a with
  | nil => simp [leadsWith]
  | cons x xs ih =>
      cases a with
      | nil => simp [leadsWith] at h
      | cons y ys =>
          simp only [leadsWith, Bool.and_eq_true] at h
          simp only [List.cons_append, leadsWith, Bool.and_eq_true]
          exact ⟨h.1, ih ys h.2⟩

/-- The empty needle occurs in every haystack. -/
theorem containsSeq_nil (l : Text) : containsSeq [] l = true := by
  cases l <;> simp [containsSeq, leadsWith]

/-- A substring occurrence survives extending the haystack on the right. -/
theorem containsSeq_append_left (n a b : Text) (h : containsSeq n a = true) :
    containsSeq n (a ++ b) = true := by
  induction a with
  | nil =>
      simp only [containsSeq, List.isEmpty_iff] at h
      subst h
      exact containsSeq_nil b
  | cons c rest ih =>
      simp only [containsSeq, Bool.or_eq_true] at h
      rcases h with h | h
      · simpa only [List.cons_append, containsSeq, Bool.or_eq_true]
          using Or.inl (leadsWith_append _ _ _ h)
      · simpa only [List.cons_append, containsSeq, Bool.or_eq_true] using Or.inr (ih h)

/-- Two texts are distinct when they disagree on a prefix the left one fully
covers (helper for the distinct-failure-message conjuncts). -/
theorem ne_append_of_take_ne (a e b : Text) (k : Nat) (hk : k ≤ a.length)
    (h : b.take k ≠ a.take k) : b ≠ a ++ e := by
  intro hEq
  apply h
  have h2 := congrArg (List.take k) hEq
  rwa [List.take_append_of_le_length hk] at h2

/-- C4: `extract_text_from_pdf` either succeeds with text containing at least
one non-whitespace character, or fails with a defined condition: a success is
never blank (conjunct 1), and each failure condition — missing file,
oversized beyond the 10 MB limit, empty/corrupted page list, no readable
text, read error — yields the failure signal with its own condition
(conjuncts 2–6), whose reported texts are pairwise distinct (conjunct 7). -/
theorem extract_text_from_pdf_cases (f : PdfFile) :
    (∀ t, extractTextFromPdf (some f) = .ok t → (stripChars t).isEmpty = false) ∧
    extractTextFromPdf none = .error .noFile ∧
    (oversizedGuard f = true → extractTextFromPdf (some f) = .error .oversized) ∧
    (∀ e, oversizedGuard f = false → f.readResult = .error e →
      extractTextFromPdf (some f) = .error (.readError e)) ∧
    (oversizedGuard f = false → f.readResult = .ok [] →
      extractTextFromPdf (some f) = .error .emptyOrCorrupted) ∧
    (∀ pages, oversizedGuard f = false → f.readResult = .ok pages →
      pages.isEmpty = false → (stripChars (pageLoop pages)).isEmpty = true →
      extractTextFromPdf (some f) = .error .noReadableText) ∧
    (∀ e : Text,
      failureMessage .oversized ≠ failureMessage .emptyOrCorrupted ∧
      failureMessage .oversized ≠ failureMessage .noReadableText ∧
      failureMessage .emptyOrCorrupted ≠ failureMessage .noReadableText ∧
      failureMessage .oversized ≠ failureMessage (.readError e) ∧
      failureMessage .emptyOrCorrupted ≠ failureMessage (.readError e) ∧
      failureMessage .noReadableText ≠ failureMessage (.readError e)) := by
  refine ⟨?_, rfl, ?_, ?_, ?_, ?_, ?_⟩
  · intro t ht
    by_cases hg : oversizedGuard f
    · simp [extractTextFromPdf, hg] at ht
    · rcases hr : f.readResult with e | pages
      · simp [extractTextFromPdf, hg, hr] at ht
      · by_cases hp : pages.isEmpty
        · simp [extractTextFromPdf, hg, hr, hp] at ht
        · by_cases hb : (stripChars (pageLoop pages)).isEmpty
          · simp [extractTextFromPdf, hg, hr, hp, hb] at ht
          · simp only [extractTextFromPdf, hg, hr, hp, hb, Bool.false_eq_true, if_false,
              Except.ok.injEq] at ht
            rw [← ht]
            exact Bool.of_not_eq_true hb
  · intro h; simp [extractTextFromPdf, h]
  · intro e h hr; simp [extractTextFromPdf, h, hr]
  · intro h hr; simp [extractTextFromPdf, h, hr]
  · intro pages h hr hne hblank
    simp [extractTextFromPdf, h, hr, hne, hblank]
  · intro e
    refine ⟨by decide, by decide, by decide, ?_, ?_, ?_⟩ <;>
      · simp only [failureMessage]
        apply ne_append_of_take_ne _ _ _ 8 (by decide)
        decide

/-- C4 witness: one successful extraction and one file for each failure
condition. -/
theorem extract_text_from_pdf_cases_witness :
    (stripChars (ofStr "Hello\n")).isEmpty = false ∧
    extractTextFromPdf (some ⟨some 20971520, .ok []⟩) = .error .oversized ∧
    extractTextFromPdf (some ⟨none, .error (ofStr "bad file")⟩) =
      .error (.readError (ofStr "bad file")) ∧
    extractTextFromPdf (some ⟨none, .ok []⟩) = .error .emptyOrCorrupted ∧
    extractTextFromPdf (some ⟨none, .ok [.text (ofStr "  ")]⟩) =
      .error .noReadableText :=
  ⟨(extract_text_from_pdf_cases ⟨none, .ok [.text (ofStr "Hello")]⟩).1
      (ofStr "Hello\n") rfl,
    (extract_text_from_pdf_cases ⟨some 20971520, .ok []⟩).2.2.1 rfl,
    (extract_text_from_pdf_cases ⟨none, .error (ofStr "bad file")⟩).2.2.2.1
      (ofStr "bad file") rfl rfl,
    (extract_text_from_pdf_cases ⟨none, .ok []⟩).2.2.2.2.1 rfl rfl,
    (extract_text_from_pdf_cases ⟨none, .ok [.text (ofStr "  ")]⟩).2.2.2.2.2.1
      [.text (ofStr "  ")] rfl rfl rfl rfl⟩

/-- C5 counterexample: 150 letters `a` form a text of fewer than 200 words
whose validation indeed fails, but with the too-few-indicators message, which
does not state that the document is too short. -/
theorem validate_short_text_counterexample :
    wordCount (List.replicate 150 'a') < 200 ∧
    (validateResumeContent (List.replicate 150 'a')).1 = false ∧
    (validateResumeContent (List.replicate 150 'a')).2 =
      ofStr "Content may not be a resume. Found only 0 resume indicators." ∧
    containsSeq (ofStr "too short")
      (validateResumeContent (List.replicate 150 'a')).2 = false := by
  refine ⟨by decide, ?_, ?_, ?_⟩ <;> decide

/-- C5 amended: for every text of fewer than 200 words,
`validate_resume_content` returns `is_valid = False`; the message states the
document is too short when the text is under 100 stripped characters or
contains at least 3 resume indicators, while a text of 100 or more stripped
characters with fewer than 3 indicators gets the too-few-indicators message
instead. -/
theorem validate_short_resume_amended (t : Text) (h : wordCount t < 200) :
    (validateResumeContent t).1 = false ∧
    ((t.isEmpty || decide ((stripChars t).length < 100)) = true →
      containsSeq (ofStr "too short") (validateResumeContent t).2 = true) ∧
    ((t.isEmpty || decide ((stripChars t).length < 100)) = false →
      3 ≤ (resumeIndicators.filter (fun ind => containsSeq ind (pyLower t))).length →
      containsSeq (ofStr "too short") (validateResumeContent t).2 = true) ∧
    ((t.isEmpty || decide ((stripChars t).length < 100)) = false →
      (resumeIndicators.filter (fun ind => containsSeq ind (pyLower t))).length < 3 →
      (validateResumeContent t).2 =
        ofStr "Content may not be a resume. Found only " ++
          ofStr (toString
            (resumeIndicators.filter (fun ind => containsSeq ind (pyLower t))).length) ++
          ofStr " resume indicators.") := by
  by_cases h1 : (t.isEmpty || decide ((stripChars t).length < 100)) = true
  · refine ⟨?_, fun _ => ?_, fun hc => absurd h1 (by simp [hc]), fun hc => absurd h1 (by simp [hc])⟩
    · simp [validateResumeContent, h1]
    · simp only [validateResumeContent, h1, if_true]
      decide
  · have h1' : (t.isEmpty || decide ((stripChars t).length < 100)) = false := by
      simpa using h1
    by_cases h2 :
        (resumeIndicators.filter (fun ind => containsSeq ind (pyLower t))).length < 3
    · refine ⟨?_, fun hc => absurd hc (by simp [h1']), fun _ hc => absurd h2 (by omega),
        fun _ _ => ?_⟩
      · simp [validateResumeContent, h1', h2]
      · simp [validateResumeContent, h1', h2]
    · refine ⟨?_, fun hc => absurd hc (by simp [h1']), fun _ _ => ?_,
        fun _ hc => absurd hc h2⟩
      · simp [validateResumeContent, h1', h2, h]
      · have hc : containsSeq (ofStr "too short") (ofStr "Resume too short (") = true := by
          decide
        simp only [validateResumeContent, h1', Bool.false_eq_true, if_false, if_neg h2,
          if_pos h]
        exact containsSeq_append_left _ _ _ hc

/-- C5 amended witness: a short text (under 100 stripped characters), where
validation fails and the message does state "too short". -/
theorem validate_short_resume_amended_witness :
    wordCount (ofStr "hello there") < 200 ∧
    (validateResumeContent (ofStr "hello there")).1 = false ∧
    containsSeq (ofStr "too short")
      (validateResumeContent (ofStr "hello there")).2 = true :=
  ⟨by decide, (validate_short_resume_amended (ofStr "hello there") (by decide)).1,
    (validate_short_resume_amended (ofStr "hello there") (by decide)).2.1 (by decide)⟩

/-- C8: an input-validation failure is recoverable: whenever extraction
succeeded with non-empty text but `validate_resume_content` returns
`is_valid = False`, the analysis branch of `main` does not abort — it
surfaces the validation message as a user-facing warning, still runs section
extraction, and still marks the analysis complete. -/
theorem validation_failure_pipeline_proceeds (t : Text)
    (hne : t.isEmpty = false) (hval : (validateResumeContent t).1 = false) :
    (runAnalysisPipeline (.ok t)).aborted = false ∧
    (runAnalysisPipeline (.ok t)).warnings =
      [ofStr "Content validation: " ++ (validateResumeContent t).2] ∧
    (runAnalysisPipeline (.ok t)).ranSectionExtraction = true ∧
    (runAnalysisPipeline (.ok t)).analysisComplete = true := by
  refine ⟨?_, ?_, ?_, ?_⟩ <;> simp [runAnalysisPipeline, hne, hval]

/-- C8 witness: a short text fails validation yet the pipeline completes. -/
theorem validation_failure_pipeline_proceeds_witness :
    (runAnalysisPipeline (.ok (ofStr "hi"))).aborted = false ∧
    (runAnalysisPipeline (.ok (ofStr "hi"))).warnings =
      [ofStr "Content validation: " ++ (validateResumeContent (ofStr "hi")).2] ∧
    (runAnalysisPipeline (.ok (ofStr "hi"))).ranSectionExtraction = true ∧
    (runAnalysisPipeline (.ok (ofStr "hi"))).analysisComplete = true :=
  validation_failure_pipeline_proceeds (ofStr "hi") (by decide) (by decide)


theorem restoreBreaks_nil : restoreBreaks [] = [] := by
  rw [restoreBreaks]

theorem restoreBreaks_cons_match {c : Char} {rest : Text} {u : Char} {tail : Text}
    (hc : isPunctEnd c = true) (h : matchWsUpper rest = some (u, tail)) :
    restoreBreaks (c :: rest) = c :: '\n' :: '\n' :: u :: restoreBreaks tail := by
  rw [restoreBreaks]
  simp only [hc, if_true]
  split
  · rename_i u' tail' heq
    rw [h] at heq
    obtain ⟨rfl, rfl⟩ : u = u' ∧ tail = tail' := by simpa using heq
    rfl
  · rename_i heq
    rw [h] at heq
    exact absurd heq (by simp)

theorem restoreBreaks_cons_nomatch {c : Char} {rest : Text}
    (hc : isPunctEnd c = true) (h : matchWsUpper rest = none) :
    restoreBreaks (c :: rest) = c :: restoreBreaks rest := by
  rw [restoreBreaks]
  simp only [hc, if_true]
  split
  · rename_i u' tail' heq
    rw [h] at heq
    exact absurd heq (by simp)
  · rfl

theorem restoreBreaks_cons_nonpunct {c : Char} {rest : Text}
    (hc : isPunctEnd c = false) :
    restoreBreaks (c :: rest) = c :: restoreBreaks rest := by
  rw [restoreBreaks]
  simp [hc]

theorem collapseWs_nil : collapseWs [] = [] := by
  rw [collapseWs]

theorem collapseWs_cons_ws {c : Char} {rest : Text} (hc : isPyWs c = true) :
    collapseWs (c :: rest) = ' ' :: collapseWs (rest.dropWhile isPyWs) := by
  rw [collapseWs]
  simp [hc]

theorem collapseWs_cons_nonws {c : Char} {rest : Text} (hc : isPyWs c = false) :
    collapseWs (c :: rest) = c :: collapseWs rest := by
  rw [collapseWs]
  simp [hc]

theorem pySplitNl_nil : pySplitNl [] = [[]] := rfl

theorem pySplitNl_cons_nl (rest : Text) :
    pySplitNl ('\n' :: rest) = [] :: pySplitNl rest := by
  simp [pySplitNl]

theorem pySplitNl_cons {c : Char} (rest : Text) (hc : c ≠ '\n') :
    pySplitNl (c :: rest) = mapHead (fun g => c :: g) (pySplitNl rest) := by
  simp [pySplitNl, hc]

theorem head?_dropWhile_not (p : Char → Bool) (y : Text) {c : Char}
    (h : (y.dropWhile p).head? = some c) : p c = false := by
  induction y with
  | nil => simp [List.dropWhile] at h
  | cons a r ih =>
      rw [List.dropWhile_cons] at h
      split at h
      · exact ih h
      · rename_i ha
        simp only [List.head?_cons, Option.some.injEq] at h
        subst h
        simpa using ha

theorem getLast?_dropWhile (p : Char → Bool) (y : Text)
    (h : y.dropWhile p ≠ []) : (y.dropWhile p).getLast? = y.getLast? := by
  induction y with
  | nil => simp at h
  | cons a r ih =>
      rw [List.dropWhile_cons] at h ⊢
      by_cases hp : p a = true
      · rw [if_pos hp] at h ⊢
        have hr : r ≠ [] := by
          intro hh
          subst hh
          simp [List.dropWhile] at h
        rw [ih h]
        exact (List.getLast?_append_of_ne_nil [a] hr).symm
      · rw [if_neg hp]

theorem stripChars_getLast? {l : Text} {c : Char}
    (h : (stripChars l).getLast? = some c) : isPyWs c = false := by
  unfold stripChars at h
  rw [List.getLast?_reverse] at h
  exact head?_dropWhile_not _ _ h

theorem stripChars_head? {l : Text} {c : Char}
    (h : (stripChars l).head? = some c) : isPyWs c = false := by
  unfold stripChars at h
  rw [List.head?_reverse] at h
  have hne : (l.dropWhile isPyWs).reverse.dropWhile isPyWs ≠ [] := by
    intro hh
    rw [hh] at h
    simp at h
  rw [getLast?_dropWhile _ _ hne, List.getLast?_reverse] at h
  exact head?_dropWhile_not _ _ h

theorem intercalate_nil (s : Text) : List.intercalate s ([] : List Text) = [] := by
  simp [List.intercalate]

theorem intercalate_single (s a : Text) : List.intercalate s [a] = a := by
  simp [List.intercalate]

theorem intercalate_cons₂ (s a b : Text) (t : List Text) :
    List.intercalate s (a :: b :: t) = a ++ s ++ List.intercalate s (b :: t) := by
  simp [List.intercalate, List.intersperse_cons_cons]

theorem wordsJoin_nil : wordsJoin [] = [] := intercalate_nil _

theorem wordsJoin_single (w : Text) : wordsJoin [w] = w := intercalate_single _ _

theorem wordsJoin_cons₂ (w w' : Text) (rest : List Text) :
    wordsJoin (w :: w' :: rest) = w ++ ' ' :: wordsJoin (w' :: rest) := by
  unfold wordsJoin
  rw [intercalate_cons₂]
  simp

theorem wordsJoin_head? {w : Text} (rest : List Text) (hw : w ≠ []) :
    (wordsJoin (w :: rest)).head? = w.head? := by
  cases rest with
  | nil => rw [wordsJoin_single]
  | cons w' t => rw [wordsJoin_cons₂]; exact List.head?_append_of_ne_nil _ hw

theorem wordsJoin_ne_nil {w : Text} {rest : List Text} (hw : w ≠ []) :
    wordsJoin (w :: rest) ≠ [] := by
  intro h
  have := wordsJoin_head? rest hw
  rw [h] at this
  rcases w with _ | ⟨c, r⟩
  · exact hw rfl
  · simp at this

theorem dropWhile_of_head_not (p : Char → Bool) (x : Text)
    (h : ∀ c, x.head? = some c → p c = false) : x.dropWhile p = x := by
  cases x with
  | nil => rfl
  | cons c r =>
      rw [List.dropWhile_cons, if_neg]
      simp [h c rfl]

theorem stripChars_eq_self {x : Text}
    (h1 : ∀ c, x.head? = some c → isPyWs c = false)
    (h2 : ∀ c, x.getLast? = some c → isPyWs c = false) : stripChars x = x := by
  unfold stripChars
  rw [dropWhile_of_head_not _ _ h1, dropWhile_of_head_not, List.reverse_reverse]
  intro c hc
  rw [List.head?_reverse] at hc
  exact h2 c hc

theorem intercalate_head? (s : Text) {w : Text} (rest : List Text) (hw : w ≠ []) :
    (List.intercalate s (w :: rest)).head? = w.head? := by
  cases rest with
  | nil => rw [intercalate_single]
  | cons w' t =>
      rw [intercalate_cons₂, List.append_assoc]
      exact List.head?_append_of_ne_nil _ hw

theorem intercalate_ne_nil (s : Text) {w : Text} (rest : List Text) (hw : w ≠ []) :
    List.intercalate s (w :: rest) ≠ [] := by
  intro h
  have h2 := intercalate_head? s rest hw
  rw [h] at h2
  rcases w with _ | ⟨c, r⟩
  · exact hw rfl
  · simp at h2

theorem intercalate_nl_edges (ls : List Text)
    (h : ∀ x ∈ ls, x ≠ [] ∧ (∀ c, x.head? = some c → isPyWs c = false) ∧
      (∀ c, x.getLast? = some c → isPyWs c = false)) :
    (∀ c, (List.intercalate [ '\n' ] ls).head? = some c → isPyWs c = false) ∧
    (∀ c, (List.intercalate [ '\n' ] ls).getLast? = some c → isPyWs c = false) := by
  induction ls with
  | nil => simp [intercalate_nil]
  | cons x t ih =>
      cases t with
      | nil =>
          rw [intercalate_single]
          exact ⟨(h x (by simp)).2.1, (h x (by simp)).2.2⟩
      | cons y t' =>
          have hx := h x (by simp)
          have hy := h y (by simp)
          have iht := ih (fun z hz => h z (by simp [hz]))
          constructor
          · intro c hc
            rw [intercalate_head? _ _ hx.1] at hc
            exact hx.2.1 c hc
          · intro c hc
            rw [intercalate_cons₂, List.getLast?_append_of_ne_nil _
              (intercalate_ne_nil [ '\n' ] t' hy.1)] at hc
            exact iht.2 c hc

theorem step1_edges (l : Text) :
    (∀ c, (step1 l).head? = some c → isPyWs c = false) ∧
    (∀ c, (step1 l).getLast? = some c → isPyWs c = false) := by
  unfold step1
  apply intercalate_nl_edges
  intro x hx
  rw [List.mem_filter] at hx
  obtain ⟨hx1, hx2⟩ := hx
  rw [List.mem_map] at hx1
  obtain ⟨y, _, rfl⟩ := hx1
  exact ⟨by simpa using hx2, fun c hc => stripChars_head? hc,
    fun c hc => stripChars_getLast? hc⟩

theorem collapse_to_words : ∀ (n : Nat) (x : Text), x.length ≤ n →
    (∀ c, x.getLast? = some c → isPyWs c = false) →
    ∃ ws : List Text, AreWords ws ∧
      ((∀ c, x.head? = some c → isPyWs c = false) → collapseWs x = wordsJoin ws) ∧
      (∀ c, x.head? = some c → isPyWs c = true →
        ws ≠ [] ∧ collapseWs x = ' ' :: wordsJoin ws) := by
  intro n
  induction n with
  | zero =>
      intro x hx _
      have hxe : x = [] := List.length_eq_zero.mp (Nat.le_zero.mp hx)
      subst hxe
      exact ⟨[], by simp [AreWords],
        fun _ => by rw [collapseWs_nil, wordsJoin_nil],
        fun c hc => by simp at hc⟩
  | succ n ih =>
      intro x hx htrail
      cases x with
      | nil =>
          exact ⟨[], by simp [AreWords],
            fun _ => by rw [collapseWs_nil, wordsJoin_nil],
            fun c hc => by simp at hc⟩
      | cons c r =>
          rw [List.length_cons, Nat.succ_le_succ_iff] at hx
          by_cases hc : isPyWs c = true
          · -- leading whitespace character
            have hr'ne : r.dropWhile isPyWs ≠ [] := by
              intro hnil
              have hall : ∀ a ∈ r, isPyWs a = true := by
                simpa using List.dropWhile_eq_nil_iff.mp hnil
              cases r with
              | nil => exact absurd (htrail c rfl) (by simp [hc])
              | cons d r₂ =>
                  have hgl := List.getLast?_eq_getLast_of_ne_nil
                    (l := d :: r₂) (by simp)
                  have hmem := List.getLast_mem (l := d :: r₂) (by simp)
                  have hlast := htrail ((d :: r₂).getLast (by simp))
                    (by rw [show ((c :: d :: r₂) : Text) = [c] ++ (d :: r₂) from rfl,
                      List.getLast?_append_of_ne_nil _ (by simp), hgl])
                  exact absurd (hall _ hmem) (by simp [hlast])
            have hrne : r ≠ [] := by
              intro hh
              subst hh
              simp [List.dropWhile] at hr'ne
            have htrail' : ∀ a, (r.dropWhile isPyWs).getLast? = some a → isPyWs a = false := by
              intro a ha
              rw [getLast?_dropWhile _ _ hr'ne] at ha
              apply htrail
              rw [show ((c :: r) : Text) = [c] ++ r from rfl,
                List.getLast?_append_of_ne_nil _ hrne]
              exact ha
            have hlen : (r.dropWhile isPyWs).length ≤ n :=
              le_trans (length_dropWhile_le _ _) hx
            obtain ⟨ws, hws, h1, _⟩ := ih (r.dropWhile isPyWs) hlen htrail'
            rcases hd : r.dropWhile isPyWs with _ | ⟨d, r₂⟩
            · exact absurd hd hr'ne
            · have hdn : isPyWs d = false := head?_dropWhile_not isPyWs r (by rw [hd]; rfl)
              have hcoll : collapseWs (r.dropWhile isPyWs) = wordsJoin ws := by
                apply h1
                intro a ha
                rw [hd] at ha
                simp only [List.head?_cons, Option.some.injEq] at ha
                subst ha
                exact hdn
              have hwsne : ws ≠ [] := by
                intro hh
                subst hh
                rw [wordsJoin_nil] at hcoll
                rw [hd, collapseWs_cons_nonws hdn] at hcoll
                simp at hcoll
              refine ⟨ws, hws, ?_, ?_⟩
              · intro hlead
                exact absurd (hlead c rfl) (by simp [hc])
              · intro c' hc' _
                refine ⟨hwsne, ?_⟩
                rw [collapseWs_cons_ws hc, hcoll]
          · -- leading word character
            have hcf : isPyWs c = false := by simpa using hc
            cases r with
            | nil =>
                refine ⟨[[c]], ?_, ?_, ?_⟩
                · intro w hw
                  simp only [List.mem_singleton] at hw
                  subst hw
                  exact ⟨by simp, by simpa using hcf⟩
                · intro _
                  rw [collapseWs_cons_nonws hcf, collapseWs_nil, wordsJoin_single]
                · intro c' hc' hws'
                  simp only [List.head?_cons, Option.some.injEq] at hc'
                  subst hc'
                  exact absurd hws' (by simp [hcf])
            | cons d r₂ =>
                have htrailr : ∀ a, (d :: r₂ : Text).getLast? = some a → isPyWs a = false := by
                  intro a ha
                  apply htrail
                  rw [show ((c :: d :: r₂) : Text) = [c] ++ (d :: r₂) from rfl,
                    List.getLast?_append_of_ne_nil _ (by simp)]
                  exact ha
                obtain ⟨wsr, hwsr, h1r, h2r⟩ := ih (d :: r₂) hx htrailr
                by_cases hd : isPyWs d = true
                · obtain ⟨hne, heq⟩ := h2r d rfl hd
                  rcases wsr with _ | ⟨w', wrest⟩
                  · exact absurd rfl hne
                  · refine ⟨[c] :: w' :: wrest, ?_, ?_, ?_⟩
                    · intro w hw
                      rcases List.mem_cons.mp hw with hw | hw
                      · subst hw
                        exact ⟨by simp, by simpa using hcf⟩
                      · exact hwsr w hw
                    · intro _
                      rw [collapseWs_cons_nonws hcf, heq, wordsJoin_cons₂]
                      rfl
                    · intro c' hc' hws'
                      simp only [List.head?_cons, Option.some.injEq] at hc'
                      subst hc'
                      exact absurd hws' (by simp [hcf])
                · have hdf : isPyWs d = false := by simpa using hd
                  have hcoll : collapseWs (d :: r₂ : Text) = wordsJoin wsr := by
                    apply h1r
                    intro a ha
                    simp only [List.head?_cons, Option.some.injEq] at ha
                    subst ha
                    exact hdf
                  have hwsne : wsr ≠ [] := by
                    intro hh
                    subst hh
                    rw [wordsJoin_nil, collapseWs_cons_nonws hdf] at hcoll
                    simp at hcoll
                  rcases wsr with _ | ⟨w₀, wrest⟩
                  · exact absurd rfl hwsne
                  · refine ⟨(c :: w₀) :: wrest, ?_, ?_, ?_⟩
                    · intro w hw
                      rcases List.mem_cons.mp hw with hw | hw
                      · subst hw
                        have hw₀ := hwsr w₀ (by simp)
                        refine ⟨by simp, ?_⟩
                        intro a ha
                        rcases List.mem_cons.mp ha with ha | ha
                        · subst ha; exact hcf
                        · exact hw₀.2 a ha
                      · exact hwsr w (by simp [hw])
                    · intro _
                      rw [collapseWs_cons_nonws hcf, hcoll]
                      cases wrest with
                      | nil => rw [wordsJoin_single, wordsJoin_single]
                      | cons w₁ t =>
                          rw [wordsJoin_cons₂, wordsJoin_cons₂]
                          rfl
                    · intro c' hc' hws'
                      simp only [List.head?_cons, Option.some.injEq] at hc'
                      subst hc'
                      exact absurd hws' (by simp [hcf])

theorem collapse_step1_words (l : Text) :
    ∃ ws, AreWords ws ∧ collapseWs (step1 l) = wordsJoin ws := by
  obtain ⟨h1, h2⟩ := step1_edges l
  obtain ⟨ws, hws, hmain, _⟩ := collapse_to_words (step1 l).length (step1 l) le_rfl h2
  exact ⟨ws, hws, hmain h1⟩

theorem takeWhile_nil_of_head (y : Text)
    (h : ∀ c, y.head? = some c → isPyWs c = false) : y.takeWhile isPyWs = [] := by
  cases y with
  | nil => rfl
  | cons c r =>
      rw [List.takeWhile_cons, if_neg]
      simp [h c rfl]

theorem matchWsUpper_none_of_head (y : Text)
    (h : ∀ c, y.head? = some c → isPyWs c = false) : matchWsUpper y = none := by
  unfold matchWsUpper
  rw [dropWhile_of_head_not _ _ h, takeWhile_nil_of_head _ h]
  cases y with
  | nil => rfl
  | cons c r => simp

theorem restore_word_chunk (w : Text) (c : Char) (X : Text)
    (hw : ∀ a ∈ w, isPyWs a = false) (hc : isPyWs c = false) :
    restoreBreaks (w ++ c :: X) = w ++ restoreBreaks (c :: X) := by
  induction w with
  | nil => simp
  | cons a w' ih =>
      have hhead : ∀ b, (w' ++ c :: X).head? = some b → isPyWs b = false := by
        intro b hb
        cases w' with
        | nil =>
            simp only [List.nil_append, List.head?_cons, Option.some.injEq] at hb
            subst hb
            exact hc
        | cons d w'' =>
            simp only [List.cons_append, List.head?_cons, Option.some.injEq] at hb
            subst hb
            exact hw d (by simp)
      have ih' := ih (fun b hb => hw b (by simp [hb]))
      by_cases ha : isPunctEnd a = true
      · rw [List.cons_append,
          restoreBreaks_cons_nomatch ha (matchWsUpper_none_of_head _ hhead), ih']
        rfl
      · rw [List.cons_append,
          restoreBreaks_cons_nonpunct (by simpa using ha), ih']
        rfl

theorem restore_word (w : Text) (hw : ∀ a ∈ w, isPyWs a = false) :
    restoreBreaks w = w := by
  induction w with
  | nil => exact restoreBreaks_nil
  | cons a w' ih =>
      have hhead : ∀ b, w'.head? = some b → isPyWs b = false := by
        intro b hb
        cases w' with
        | nil => simp at hb
        | cons d w'' =>
            simp only [List.head?_cons, Option.some.injEq] at hb
            subst hb
            exact hw d (by simp)
      have ih' := ih (fun b hb => hw b (by simp [hb]))
      by_cases ha : isPunctEnd a = true
      · rw [restoreBreaks_cons_nomatch ha (matchWsUpper_none_of_head _ hhead), ih']
      · rw [restoreBreaks_cons_nonpunct (by simpa using ha), ih']

theorem upper_not_punct {u : Char} (h : isUpperAZ u = true) : isPunctEnd u = false := by
  simp only [isUpperAZ, Bool.and_eq_true, decide_eq_true_eq] at h
  by_contra hp
  simp only [Bool.not_eq_false, isPunctEnd, Bool.or_eq_true, beq_iff_eq] at hp
  rcases hp with (rfl | rfl) | rfl <;> exact absurd h.1 (by decide)

theorem space_not_punct : isPunctEnd ' ' = false := by decide

theorem restore_sep (c u : Char) (T' : Text)
    (hu : isPyWs u = false) :
    restoreBreaks (c :: ' ' :: u :: T') =
      if isPunctEnd c && isUpperAZ u then c :: '\n' :: '\n' :: restoreBreaks (u :: T')
      else c :: ' ' :: restoreBreaks (u :: T') := by
  have hhead : ∀ b, (u :: T' : Text).head? = some b → isPyWs b = false := by
    intro b hb
    simp only [List.head?_cons, Option.some.injEq] at hb
    subst hb
    exact hu
  have hmatch : matchWsUpper (' ' :: u :: T') =
      (if isUpperAZ u then some (u, T') else none) := by
    unfold matchWsUpper
    rw [List.dropWhile_cons, if_pos (by decide), dropWhile_of_head_not _ _ hhead,
      List.takeWhile_cons, if_pos (by decide), takeWhile_nil_of_head _ hhead]
    simp
  by_cases hc : isPunctEnd c = true
  · by_cases hup : isUpperAZ u = true
    · rw [if_pos (by simp [hc, hup])]
      rw [restoreBreaks_cons_match hc (by rw [hmatch, if_pos hup])]
      rw [restoreBreaks_cons_nonpunct (upper_not_punct hup)]
    · rw [if_neg (by simp [hup])]
      rw [restoreBreaks_cons_nomatch hc (by rw [hmatch, if_neg hup])]
      rw [restoreBreaks_cons_nonpunct space_not_punct]
  · rw [if_neg (by simp [hc])]
    rw [restoreBreaks_cons_nonpunct (by simpa using hc),
      restoreBreaks_cons_nonpunct space_not_punct]

theorem interSep_cons₂ (w w' : Text) (rest : List Text) :
    interSep (w :: w' :: rest) =
      w ++ (if isBreak w w' then [ '\n', '\n' ] else [ ' ' ]) ++ interSep (w' :: rest) := by
  rfl

theorem interSepNl_cons₂ (w w' : Text) (rest : List Text) :
    interSepNl (w :: w' :: rest) =
      w ++ (if isBreak w w' then [ '\n' ] else [ ' ' ]) ++ interSepNl (w' :: rest) := by
  rfl

theorem isBreak_eq {w w' : Text} {cl u : Char}
    (h1 : w.getLast? = some cl) (h2 : w'.head? = some u) :
    isBreak w w' = (isPunctEnd cl && isUpperAZ u) := by
  unfold isBreak
  rw [h1, h2]

theorem restore_inter (ws : List Text) (hws : AreWords ws) :
    restoreBreaks (wordsJoin ws) = interSep ws := by
  induction ws with
  | nil => rw [wordsJoin_nil, restoreBreaks_nil]; rfl
  | cons w rest ih =>
      cases rest with
      | nil =>
          rw [wordsJoin_single]
          rw [restore_word w (hws w (by simp)).2]
          rfl
      | cons w' rest' =>
          have hw := hws w (by simp)
          have hw' := hws w' (by simp)
          have ihr := ih (fun z hz => hws z (by simp [hz]))
          obtain ⟨w0, cl, rfl⟩ : ∃ w0 cl, w = w0 ++ [cl] :=
            ⟨w.dropLast, w.getLast hw.1, (List.dropLast_append_getLast hw.1).symm⟩
          have hclnw : isPyWs cl = false := hw.2 cl (by simp)
          rcases hT : wordsJoin (w' :: rest') with _ | ⟨u, T'⟩
          · exact absurd hT (wordsJoin_ne_nil hw'.1)
          · have hTu := wordsJoin_head? rest' hw'.1
            rw [hT] at hTu
            have hu : w'.head? = some u := hTu.symm
            have hunw : isPyWs u = false := by
              rcases w' with _ | ⟨u', w'tail⟩
              · exact absurd rfl hw'.1
              · simp only [List.head?_cons, Option.some.injEq] at hu
                subst hu
                exact hw'.2 _ (by simp)
            have hstep : restoreBreaks (wordsJoin ((w0 ++ [cl]) :: w' :: rest')) =
                w0 ++ restoreBreaks (cl :: ' ' :: u :: T') := by
              rw [wordsJoin_cons₂, hT, List.append_assoc]
              exact restore_word_chunk _ _ _
                (fun a ha => hw.2 a (by simp [ha])) hclnw
            rw [hstep, restore_sep _ _ _ hunw]
            have hrT : restoreBreaks (u :: T') = interSep (w' :: rest') := by
              rw [← hT]; exact ihr
            rw [hrT, interSep_cons₂, isBreak_eq (List.getLast?_concat _) hu]
            by_cases hb : isPunctEnd cl && isUpperAZ u
            · rw [if_pos hb, if_pos hb]
              simp
            · rw [if_neg hb, if_neg hb]
              simp

theorem pySplitNl_ne_nil (y : Text) : pySplitNl y ≠ [] := by
  induction y with
  | nil => simp [pySplitNl_nil]
  | cons c r ih =>
      by_cases hc : c = '\n'
      · subst hc
        rw [pySplitNl_cons_nl]
        simp
      · rw [pySplitNl_cons r hc]
        rcases h : pySplitNl r with _ | ⟨g, gs⟩
        · exact absurd h ih
        · simp [mapHead]

theorem mapHead_mapHead (f g : Text → Text) (l : List Text) :
    mapHead f (mapHead g l) = mapHead (fun x => f (g x)) l := by
  cases l <;> simp [mapHead]

theorem pySplitNl_append_word (w y : Text) (hw : ∀ a ∈ w, a ≠ '\n') :
    pySplitNl (w ++ y) = mapHead (fun g => w ++ g) (pySplitNl y) := by
  induction w with
  | nil =>
      rcases h : pySplitNl y with _ | ⟨g, gs⟩
      · exact absurd h (pySplitNl_ne_nil y)
      · rw [List.nil_append, h]
        simp [mapHead]
  | cons a w' ih =>
      rw [List.cons_append, pySplitNl_cons _ (hw a (by simp)),
        ih (fun b hb => hw b (by simp [hb])), mapHead_mapHead]
      rfl

theorem word_edges {w : Text} (hw : IsWord w) :
    (∀ c, w.head? = some c → isPyWs c = false) ∧
    (∀ c, w.getLast? = some c → isPyWs c = false) := by
  constructor
  · intro c hc
    rcases w with _ | ⟨a, r⟩
    · simp at hc
    · simp only [List.head?_cons, Option.some.injEq] at hc
      exact hc ▸ hw.2 a (by simp)
  · intro c hc
    obtain ⟨hne, hceq⟩ := List.mem_getLast?_eq_getLast (l := w) (x := c)
      (by rw [hc]; rfl)
    subst hceq
    exact hw.2 _ (List.getLast_mem hne)

theorem word_no_nl {w : Text} (hw : IsWord w) : ∀ a ∈ w, a ≠ '\n' := by
  intro a ha hnl
  subst hnl
  have := hw.2 '\n' ha
  simp [isPyWs] at this

theorem lineView_cons₂ (w w' : Text) (rest : List Text) :
    lineView (w :: w' :: rest) =
      if isBreak w w' then w :: [] :: lineView (w' :: rest)
      else mapHead (fun g => w ++ ' ' :: g) (lineView (w' :: rest)) := by
  rfl

theorem groups_cons₂ (w w' : Text) (rest : List Text) :
    groups (w :: w' :: rest) =
      if isBreak w w' then w :: groups (w' :: rest)
      else mapHead (fun g => w ++ ' ' :: g) (groups (w' :: rest)) := by
  rfl

theorem lineView_head (ws : List Text) (hws : AreWords ws) (hne : ws ≠ []) :
    ∃ g gs, lineView ws = g :: gs ∧ g ≠ [] ∧
      (∀ c, g.head? = some c → isPyWs c = false) ∧
      (∀ c, g.getLast? = some c → isPyWs c = false) := by
  induction ws with
  | nil => exact absurd rfl hne
  | cons w rest ih =>
      have hw := hws w (by simp)
      cases rest with
      | nil =>
          exact ⟨w, [], rfl, hw.1, (word_edges hw).1, (word_edges hw).2⟩
      | cons w' rest' =>
          rw [lineView_cons₂]
          by_cases hb : isBreak w w'
          · rw [if_pos hb]
            exact ⟨w, _, rfl, hw.1, (word_edges hw).1, (word_edges hw).2⟩
          · rw [if_neg hb]
            obtain ⟨g', gs', hlv, hg'ne, _, hg'last⟩ :=
              ih (fun z hz => hws z (by simp [hz])) (by simp)
            rw [hlv]
            refine ⟨w ++ ' ' :: g', gs', rfl, by simp, ?_, ?_⟩
            · intro c hc
              rw [List.head?_append_of_ne_nil _ hw.1] at hc
              exact (word_edges hw).1 c hc
            · intro c hc
              rw [List.getLast?_append_of_ne_nil _ (by simp : (' ' :: g' : Text) ≠ []),
                show ((' ' :: g') : Text) = [' '] ++ g' from rfl,
                List.getLast?_append_of_ne_nil _ hg'ne] at hc
              exact hg'last c hc

theorem pySplitNl_interSep (ws : List Text) (hws : AreWords ws) :
    pySplitNl (interSep ws) = lineView ws := by
  induction ws with
  | nil => rfl
  | cons w rest ih =>
      have hw := hws w (by simp)
      cases rest with
      | nil =>
          show pySplitNl w = [w]
          have := pySplitNl_append_word w [] (word_no_nl hw)
          rw [List.append_nil] at this
          rw [this, pySplitNl_nil]
          simp [mapHead]
      | cons w' rest' =>
          have ihr := ih (fun z hz => hws z (by simp [hz]))
          rw [interSep_cons₂, lineView_cons₂, List.append_assoc,
            pySplitNl_append_word w _ (word_no_nl hw)]
          by_cases hb : isBreak w w'
          · rw [if_pos hb, if_pos hb]
            show mapHead _ (pySplitNl ('\n' :: '\n' :: interSep (w' :: rest'))) = _
            rw [pySplitNl_cons_nl, pySplitNl_cons_nl, ihr]
            simp [mapHead]
          · rw [if_neg hb, if_neg hb]
            show mapHead _ (pySplitNl (' ' :: interSep (w' :: rest'))) = _
            rw [pySplitNl_cons _ (by decide), ihr, mapHead_mapHead]

theorem stripChars_nil : stripChars [] = [] := rfl

theorem ne_nil_isEmpty_false {x : Text} (h : x ≠ []) : x.isEmpty = false := by
  simpa [List.isEmpty_iff] using h

theorem groups_head (ws : List Text) (hws : AreWords ws) (hne : ws ≠ []) :
    ∃ g gs, groups ws = g :: gs ∧ g ≠ [] := by
  induction ws with
  | nil => exact absurd rfl hne
  | cons w rest ih =>
      have hw := hws w (by simp)
      cases rest with
      | nil => exact ⟨w, [], rfl, hw.1⟩
      | cons w' rest' =>
          rw [groups_cons₂]
          by_cases hb : isBreak w w'
          · rw [if_pos hb]
            exact ⟨w, _, rfl, hw.1⟩
          · rw [if_neg hb]
            obtain ⟨g, gs, hg, _⟩ := ih (fun z hz => hws z (by simp [hz])) (by simp)
            rw [hg]
            exact ⟨w ++ ' ' :: g, gs, rfl, by simp⟩

theorem stripped_lines_eq_groups (ws : List Text) (hws : AreWords ws) :
    ((lineView ws).map stripChars).filter (fun x => !x.isEmpty) = groups ws := by
  induction ws with
  | nil =>
      show (([[]] : List Text).map stripChars).filter (fun x => !x.isEmpty) = []
      simp [stripChars_nil]
  | cons w rest ih =>
      have hw := hws w (by simp)
      have hwstrip : stripChars w = w :=
        stripChars_eq_self (word_edges hw).1 (word_edges hw).2
      cases rest with
      | nil =>
          show (([w] : List Text).map stripChars).filter (fun x => !x.isEmpty) = [w]
          rw [List.map_cons, List.map_nil, hwstrip, List.filter_cons,
            if_pos (by simp [ne_nil_isEmpty_false hw.1])]
          rfl
      | cons w' rest' =>
          have ihr := ih (fun z hz => hws z (by simp [hz]))
          rw [lineView_cons₂, groups_cons₂]
          by_cases hb : isBreak w w'
          · rw [if_pos hb, if_pos hb]
            rw [List.map_cons, List.map_cons, hwstrip, stripChars_nil,
              List.filter_cons, List.filter_cons,
              if_pos (by simp [ne_nil_isEmpty_false hw.1]), if_neg (by simp)]
            rw [ihr]
          · rw [if_neg hb, if_neg hb]
            obtain ⟨g, gs, hlv, hgne, hghead, hglast⟩ := lineView_head (w' :: rest')
              (fun z hz => hws z (by simp [hz])) (by simp)
            rw [hlv] at ihr ⊢
            have hstripg : stripChars g = g := stripChars_eq_self hghead hglast
            rw [List.map_cons, hstripg, List.filter_cons,
              if_pos (by simp [ne_nil_isEmpty_false hgne])] at ihr
            rw [← ihr]
            have hstripfg : stripChars (w ++ ' ' :: g) = w ++ ' ' :: g := by
              apply stripChars_eq_self
              · intro c hc
                rw [List.head?_append_of_ne_nil _ hw.1] at hc
                exact (word_edges hw).1 c hc
              · intro c hc
                rw [List.getLast?_append_of_ne_nil _ (by simp : (' ' :: g : Text) ≠ []),
                  show ((' ' :: g) : Text) = [' '] ++ g from rfl,
                  List.getLast?_append_of_ne_nil _ hgne] at hc
                exact hglast c hc
            simp only [mapHead]
            rw [List.map_cons, hstripfg, List.filter_cons, if_pos (by simp)]

theorem intercalate_groups (ws : List Text) (hws : AreWords ws) :
    List.intercalate [ '\n' ] (groups ws) = interSepNl ws := by
  induction ws with
  | nil =>
      show List.intercalate [ '\n' ] [] = ([] : Text)
      exact intercalate_nil _
  | cons w rest ih =>
      cases rest with
      | nil =>
          show List.intercalate [ '\n' ] [w] = w
          exact intercalate_single _ _
      | cons w' rest' =>
          have ihr := ih (fun z hz => hws z (by simp [hz]))
          obtain ⟨g, gs, hg, _⟩ := groups_head (w' :: rest')
            (fun z hz => hws z (by simp [hz])) (by simp)
          rw [groups_cons₂, interSepNl_cons₂]
          by_cases hb : isBreak w w'
          · rw [if_pos hb, if_pos hb, hg, intercalate_cons₂,
              show List.intercalate [ '\n' ] (g :: gs) = interSepNl (w' :: rest') from by
                rw [← hg]; exact ihr]
          · rw [if_neg hb, if_neg hb, hg]
            simp only [mapHead]
            cases gs with
            | nil =>
                rw [intercalate_single,
                  show interSepNl (w' :: rest') = g from by
                    rw [← ihr, hg, intercalate_single]]
                simp
            | cons g₂ gs₂ =>
                rw [intercalate_cons₂,
                  show interSepNl (w' :: rest') =
                      g ++ [ '\n' ] ++ List.intercalate [ '\n' ] (g₂ :: gs₂) from by
                    rw [← ihr, hg, intercalate_cons₂]]
                simp

theorem collapse_word_chunk (w y : Text) (hw : ∀ a ∈ w, isPyWs a = false) :
    collapseWs (w ++ y) = w ++ collapseWs y := by
  induction w with
  | nil => simp
  | cons a w' ih =>
      rw [List.cons_append, collapseWs_cons_nonws (hw a (by simp)),
        ih (fun b hb => hw b (by simp [hb]))]
      rfl

theorem collapse_cons_clean (s₀ : Char) (y : Text) (hs : isPyWs s₀ = true)
    (hy : ∀ c, y.head? = some c → isPyWs c = false) :
    collapseWs (s₀ :: y) = ' ' :: collapseWs y := by
  rw [collapseWs_cons_ws hs, dropWhile_of_head_not _ _ hy]

theorem interSepNl_head? {w : Text} (rest : List Text) (hw : w ≠ []) :
    (interSepNl (w :: rest)).head? = w.head? := by
  cases rest with
  | nil => rfl
  | cons w' rest' =>
      rw [interSepNl_cons₂, List.append_assoc]
      exact List.head?_append_of_ne_nil _ hw

theorem interSep_head? {w : Text} (rest : List Text) (hw : w ≠ []) :
    (interSep (w :: rest)).head? = w.head? := by
  cases rest with
  | nil => rfl
  | cons w' rest' =>
      rw [interSep_cons₂, List.append_assoc]
      exact List.head?_append_of_ne_nil _ hw

theorem collapse_interSepNl (ws : List Text) (hws : AreWords ws) :
    collapseWs (interSepNl ws) = wordsJoin ws := by
  induction ws with
  | nil => rw [show interSepNl [] = ([] : Text) from rfl, collapseWs_nil, wordsJoin_nil]
  | cons w rest ih =>
      have hw := hws w (by simp)
      cases rest with
      | nil =>
          show collapseWs w = wordsJoin [w]
          rw [wordsJoin_single]
          have h := collapse_word_chunk w [] hw.2
          rw [List.append_nil] at h
          rw [h, collapseWs_nil, List.append_nil]
      | cons w' rest' =>
          have hw' := hws w' (by simp)
          have ihr := ih (fun z hz => hws z (by simp [hz]))
          have hheadI : ∀ c, (interSepNl (w' :: rest')).head? = some c → isPyWs c = false := by
            intro c hc
            rw [interSepNl_head? rest' hw'.1] at hc
            exact (word_edges hw').1 c hc
          rw [interSepNl_cons₂, wordsJoin_cons₂, List.append_assoc,
            collapse_word_chunk _ _ hw.2]
          by_cases hb : isBreak w w'
          · rw [if_pos hb]
            show w ++ collapseWs ('\n' :: interSepNl (w' :: rest')) = _
            rw [collapse_cons_clean _ _ (by decide) hheadI, ihr]
          · rw [if_neg hb]
            show w ++ collapseWs (' ' :: interSepNl (w' :: rest')) = _
            rw [collapse_cons_clean _ _ (by decide) hheadI, ihr]

theorem step1_interSep (ws : List Text) (hws : AreWords ws) :
    step1 (interSep ws) = interSepNl ws := by
  unfold step1
  rw [pySplitNl_interSep ws hws, stripped_lines_eq_groups ws hws]
  exact intercalate_groups ws hws

theorem preprocess_interSep_fixed (ws : List Text) (hws : AreWords ws) :
    preprocessText (interSep ws) = interSep ws := by
  cases ws with
  | nil =>
      show preprocessText [] = ([] : Text)
      simp [preprocessText]
  | cons w rest =>
      have hw := hws w (by simp)
      obtain ⟨c, hc⟩ : ∃ c, w.head? = some c := by
        rcases w with _ | ⟨c, r⟩
        · exact absurd rfl hw.1
        · exact ⟨c, rfl⟩
      have hne : interSep (w :: rest) ≠ [] := by
        intro hh
        have h2 := interSep_head? rest hw.1
        rw [hh, hc] at h2
        simp at h2
      rw [preprocessText, if_neg (by simp [ne_nil_isEmpty_false hne])]
      rw [step1_interSep _ hws, collapse_interSepNl _ hws]
      exact restore_inter _ hws

/-- C9: `preprocess_text` is total (the embedding is a terminating function),
maps empty/falsy input to the empty string, and is idempotent: cleaning
already-cleaned text changes nothing. -/
theorem preprocess_text_idempotent (l : Text) :
    preprocessText (preprocessText l) = preprocessText l ∧
    preprocessText [] = [] := by
  have hemp : preprocessText ([] : Text) = [] := by simp [preprocessText]
  refine ⟨?_, hemp⟩
  by_cases hl : l.isEmpty
  · rw [show preprocessText l = [] from by simp [preprocessText, hl], hemp]
  · obtain ⟨ws, hws, hcoll⟩ := collapse_step1_words l
    have hpre : preprocessText l = interSep ws := by
      rw [preprocessText, if_neg hl, hcoll]
      exact restore_inter ws hws
    rw [hpre]
    exact preprocess_interSep_fixed ws hws

end ResumeAnalysis
